import Mathlib

/-!
Verification of the MCP node registry and tool-invocation client of
yxi-chat-cli (source file src/mcp_client.py).

The embedding is shallow and executable: Python JSON values become the
inductive `Json`, the Python dict `self.nodes` becomes an insertion-ordered
association list with Python-dict update/delete/iteration semantics, and every
method of `MCPClient` becomes a pure function from the client state to an
`Except` value.  A Python method that raises maps to `Except.error`; since the
embedded operations return a fresh state only on success, a raised error
leaves the previous state as the current one, exactly as in the source, where
every `raise` happens before any mutation.

The HTTP layer (`requests`) is modelled by an explicit transport function
`HttpRequest → HttpResponse` supplied to `invoke_tool`; `raise_for_status`
follows the documented `requests` behaviour of raising exactly for status
codes in [400, 600).
-/

namespace MCP

/-- JSON values as produced by Python `json.load` / consumed by `json.dump`.
Numbers are modelled as integers (no claim involves floats). -/
inductive Json where
  | null
  | bool (b : Bool)
  | num (n : Int)
  | str (s : String)
  | arr (xs : List Json)
  | obj (kvs : List (String × Json))

/-- Python truthiness (`bool(x)`) of a JSON value: None, False, 0, empty
string, empty list and empty dict are falsy, everything else truthy. -/
def jsonTruthy : Json → Bool
  | .null => false
  | .bool b => b
  | .num n => n != 0
  | .str s => s != ""
  | .arr xs => !xs.isEmpty
  | .obj kvs => !kvs.isEmpty

/-- Python `repr` of a JSON value (used by `str` on containers).  String
escaping inside quotes is not reproduced; no theorem depends on it. -/
def pyRepr : Json → String
  | .null => "None"
  | .bool true => "True"
  | .bool false => "False"
  | .num n => toString n
  | .str s => "\x27" ++ s ++ "\x27"
  | .arr xs => "[" ++ String.intercalate ", " (xs.attach.map (fun x => pyRepr x.1)) ++ "]"
  | .obj kvs =>
    "\x7b" ++
      String.intercalate ", "
        (kvs.attach.map (fun p => "\x27" ++ p.1.1 ++ "\x27: " ++ pyRepr p.1.2)) ++ "\x7d"
decreasing_by
  · have := List.sizeOf_lt_of_mem x.2
    simp only [Json.arr.sizeOf_spec]
    omega
  · rcases p with ⟨⟨k, v⟩, hp⟩
    have := List.sizeOf_lt_of_mem hp
    simp only [Prod.mk.sizeOf_spec] at this
    simp only [Json.obj.sizeOf_spec]
    omega

/-- Python `str` of a JSON value, as interpolated by an f-string: identity on
strings, `repr`-like on everything else. -/
def pyStr : Json → String
  | .str s => s
  | j => pyRepr j

/-- Insertion-ordered string-keyed dictionary: the model of a Python `dict`
with `str` keys.  Reachable dictionaries have pairwise-distinct keys. -/
abbrev PyDict (α : Type) := List (String × α)

/-- Python `k in d`. -/
def dictContains (d : PyDict α) (k : String) : Bool :=
  d.any (fun p => p.1 == k)

/-- Python `d.get(k)` / `d[k]`: the value stored under `k`, if any. -/
def dictGet (d : PyDict α) (k : String) : Option α :=
  (d.find? (fun p => p.1 == k)).map (fun p => p.2)

/-- Python `d[k] = v`: replaces in place when `k` is present (keeping its
position), appends otherwise. -/
def dictSet (d : PyDict α) (k : String) (v : α) : PyDict α :=
  if dictContains d k then d.map (fun p => if p.1 == k then (k, v) else p)
  else d ++ [(k, v)]

/-- Python `del d[k]`. -/
def dictDel (d : PyDict α) (k : String) : PyDict α :=
  d.filter (fun p => p.1 != k)

/-- Python `next(iter(d), None)`: the first key in insertion order. -/
def dictFirstKey (d : PyDict α) : Option String :=
  d.head?.map (fun p => p.1)

/-- Conversion of a parsed JSON object to a Python dict: later duplicate keys
overwrite the value but keep the first occurrence's position, exactly as in
Python's dict construction. -/
def jsonObjToDict (pairs : List (String × Json)) : PyDict Json :=
  pairs.foldl (fun d p => dictSet d p.1 p.2) []

/-- The errors the client can raise, one constructor per `raise` site (plus
the two exceptions escaping `_load_state` and the two `requests` failures).
The doc of each constructor records the exact Python exception. -/
inductive PyErr where
  /-- `ValueError("Both name and URL are required")` from `add_node`. -/
  | invalidNameUrl
  /-- `ValueError("Tool name is required")` from `invoke_tool`. -/
  | toolNameRequired
  /-- `ValueError(f"MCP node ... not found")` from `remove_node` / `set_active`,
  carrying the offending name. -/
  | nodeNotFound (name : String)
  /-- `ValueError("No active MCP node configured")` from `invoke_tool` /
  `list_tools` when node resolution yields `None`. -/
  | noActiveNode
  /-- `AttributeError` escaping `_load_state` (e.g. `payload.get` on a
  non-dict payload, or `.items()` on a non-dict "nodes" value), carrying the
  missing attribute. -/
  | attributeError (attr : String)
  /-- `requests.HTTPError` raised by `response.raise_for_status()`. -/
  | httpStatusError (status : Nat)
  /-- `json.JSONDecodeError` raised by `response.json()` on a non-empty body
  that is not valid JSON. -/
  | jsonDecodeError
  deriving Repr, DecidableEq

/-- The `MCPNode` dataclass.  Python is dynamically typed: `_load_state`
stores whatever truthy JSON value sits under `"url"` and whatever value sits
under `"token"`, so both fields hold `Json`; `add_node` always stores a
`Json.str` url and a string-or-None token. -/
structure MCPNode where
  name : String
  url : Json
  token : Json

/-- The mutable state of an `MCPClient` instance: the node registry (a Python
dict, insertion-ordered) and the active node name (`None` modelled as
`none`). -/
structure MCPClient where
  nodes : PyDict MCPNode
  active_name : Option String

/-- Python truthiness of `self.active_name` (an `Optional[str]`): falsy when
`None` or the empty string. -/
def optStrTruthy : Option String → Bool
  | none => false
  | some s => s != ""

/-- The `token` argument of `add_node` as stored in the dataclass
(`None` ↦ JSON null). -/
def tokenJson : Option String → Json
  | none => Json.null
  | some s => Json.str s

/-- Python `url.rstrip("/")`: removes every trailing slash. -/
def rstripSlashes (s : String) : String :=
  String.mk ((s.data.reverse.dropWhile (fun c => c == '/')).reverse)

/-! ## `_load_state` (src/mcp_client.py lines 36-58)

`loadState none` models a missing config file or a `json.load` failure (both
return early, leaving the freshly initialised empty state); `loadState (some
payload)` models a successful parse of the file into `payload`. -/

/-- One iteration of the `for name, meta in nodes_payload.items()` loop of
`_load_state`: skips the entry when its meta is not a dict
(`isinstance(meta, dict)`) or its `"url"` value is falsy (`if not url`),
otherwise stores `MCPNode(name=name, url=url, token=meta.get("token"))` —
the node's name is the map key, any `"name"` field inside the meta is
ignored. -/
def loadEntry (acc : PyDict MCPNode) (p : String × Json) : PyDict MCPNode :=
  match p.2 with
  | Json.obj mpairs =>
    let meta := jsonObjToDict mpairs
    let url := (dictGet meta "url").getD Json.null
    if jsonTruthy url then
      dictSet acc p.1 ⟨p.1, url, (dictGet meta "token").getD Json.null⟩
    else acc
  | _ => acc

/-- The whole `for name, meta in nodes_payload.items()` loop, writing into the
initially empty `self.nodes`. -/
def loadNodesLoop (entries : PyDict Json) : PyDict MCPNode :=
  entries.foldl loadEntry []

/-- `MCPClient.__init__` + `_load_state`.  Note the two exception paths of the
source: `nodes_payload.items()` raises `AttributeError` when a present
`"nodes"` value is not an object, and `payload.get("active")` raises
`AttributeError` when the payload itself is not an object (the
`isinstance(payload, dict)` guard covers only the `"nodes"` lookup). -/
def loadState (file : Option Json) : Except PyErr MCPClient :=
  match file with
  | none => Except.ok { nodes := [], active_name := none }
  | some payload =>
    let payloadDict : Option (PyDict Json) :=
      match payload with
      | Json.obj pairs => some (jsonObjToDict pairs)
      | _ => none
    let nodesVal : Json :=
      match payloadDict with
      | some pd => (dictGet pd "nodes").getD (Json.obj [])
      | none => Json.obj []
    match nodesVal with
    | Json.obj npairs =>
      match payloadDict with
      | some pd =>
        let nodes := loadNodesLoop (jsonObjToDict npairs)
        let active : Option String :=
          match dictGet pd "active" with
          | some (Json.str a) => if dictContains nodes a then some a else none
          | _ => none
        Except.ok { nodes := nodes, active_name := active }
      | none => Except.error (PyErr.attributeError "get")
    | _ => Except.error (PyErr.attributeError "items")

/-! ## `_save_state` (lines 60-71) -/

/-- `dataclasses.asdict(node)`: the field dict in declaration order. -/
def asdictNode (n : MCPNode) : Json :=
  Json.obj [("name", Json.str n.name), ("url", n.url), ("token", n.token)]

/-- The JSON payload written by `_save_state` (the filesystem write itself
has no in-memory effect; `json.dump` followed by `json.load` is the identity
on these values). -/
def saveState (c : MCPClient) : Json :=
  Json.obj
    [("active",
      match c.active_name with
      | some a => if dictContains c.nodes a then Json.str a else Json.null
      | none => Json.null),
     ("nodes", Json.obj (c.nodes.map (fun p => (p.1, asdictNode p.2))))]

/-! ## Node management (lines 76-104) -/

/-- Strict lexicographic comparison of character lists by code point, the
order Python uses on `str`. -/
def charListLt : List Char → List Char → Bool
  | [], [] => false
  | [], _ :: _ => true
  | _ :: _, [] => false
  | a :: as, b :: bs =>
    if a.toNat < b.toNat then true
    else if b.toNat < a.toNat then false
    else charListLt as bs

/-- Strict comparison of `name.lower()` sort keys, as Python compares the
`key=lambda node: node.name.lower()` results in `sorted`. -/
def pyKeyLt (a b : String) : Bool :=
  charListLt (a.data.map Char.toLower) (b.data.map Char.toLower)

/-- Insertion into a sorted list after all smaller-or-equal keys; folding it
over a list in order is a stable sort, like Python `sorted`. -/
def insertSorted (x : MCPNode) : List MCPNode → List MCPNode
  | [] => [x]
  | y :: ys =>
    if pyKeyLt x.name y.name then x :: y :: ys else y :: insertSorted x ys

/-- `list_nodes`: the registry's values sorted by lower-cased name
(case-insensitive ascending, stable). -/
def list_nodes (c : MCPClient) : List MCPNode :=
  (c.nodes.map (fun p => p.2)).foldl (fun acc n => insertSorted n acc) []

/-- `add_node` (lines 79-85).  `if not name or not url` rejects empty
arguments; the stored url is `url.rstrip("/")`; a falsy (`None` or empty)
active name is replaced by the new node's name. -/
def add_node (c : MCPClient) (name url : String) (token : Option String) :
    Except PyErr MCPClient :=
  if name == "" || url == "" then Except.error PyErr.invalidNameUrl
  else
    let node : MCPNode := ⟨name, Json.str (rstripSlashes url), tokenJson token⟩
    Except.ok
      { nodes := dictSet c.nodes name node
        active_name :=
          if optStrTruthy c.active_name then c.active_name else some name }

/-- `remove_node` (lines 87-93): `NotFound` when the name is absent;
otherwise deletes it, and when it was the active name the active name becomes
`next(iter(self.nodes), None)`, the first remaining key or `None`. -/
def remove_node (c : MCPClient) (name : String) : Except PyErr MCPClient :=
  if !dictContains c.nodes name then Except.error (PyErr.nodeNotFound name)
  else
    let nodes := dictDel c.nodes name
    Except.ok
      { nodes := nodes
        active_name :=
          if c.active_name == some name then dictFirstKey nodes
          else c.active_name }

/-- `set_active` (lines 95-99). -/
def set_active (c : MCPClient) (name : String) : Except PyErr MCPClient :=
  if !dictContains c.nodes name then Except.error (PyErr.nodeNotFound name)
  else Except.ok { nodes := c.nodes, active_name := some name }

/-- `get_active_node` (lines 101-104): the active node, or `None` when the
active name is falsy or no longer resolves. -/
def get_active_node (c : MCPClient) : Option MCPNode :=
  match c.active_name with
  | some a => if a != "" then dictGet c.nodes a else none
  | none => none

/-! ## HTTP helpers (lines 109-159) -/

/-- `_headers_for` (lines 109-113): always `Content-Type`, plus a bearer
`Authorization` header when `node.token` is truthy. -/
def headersFor (node : MCPNode) : List (String × String) :=
  if jsonTruthy node.token then
    [("Content-Type", "application/json"),
     ("Authorization", "Bearer " ++ pyStr node.token)]
  else [("Content-Type", "application/json")]

/-- An HTTP request as issued through `requests.post(url, headers=..., json=body)`. -/
structure HttpRequest where
  method : String
  url : String
  headers : List (String × String)
  body : Json

/-- The body of an HTTP response, partitioned the way lines 158-159 inspect
it: empty content, non-empty content parsing to a JSON value, or non-empty
content that is not valid JSON. -/
inductive ResponseBody where
  | empty
  | json (j : Json)
  | invalid

/-- An HTTP response as seen by `invoke_tool`. -/
structure HttpResponse where
  status : Nat
  body : ResponseBody

/-- Node resolution shared by `list_tools` and `invoke_tool` (line 144):
`self.nodes.get(node_name) if node_name else self.get_active_node()`.  A
falsy `node_name` (None or empty) falls back to the active node. -/
def resolveNode (c : MCPClient) (node_name : Option String) : Option MCPNode :=
  match node_name with
  | some s => if s != "" then dictGet c.nodes s else get_active_node c
  | none => get_active_node c

/-- The validation/request-building phase of `invoke_tool` (lines 141-157):
everything that happens before the network call.  Returns the request that
`requests.post` is given, or the error raised before any network activity.
Note `if context:` — a falsy context (None or empty dict) is omitted from the
envelope. -/
def invokeToolRequest (c : MCPClient) (tool_name : String) (payload : Json)
    (node_name : Option String) (context : Option Json) :
    Except PyErr HttpRequest :=
  if tool_name == "" then Except.error PyErr.toolNameRequired
  else
    match resolveNode c node_name with
    | none => Except.error PyErr.noActiveNode
    | some node =>
      let bodyPairs :=
        match context with
        | some ctx => if jsonTruthy ctx then [("context", ctx)] else []
        | none => []
      Except.ok
        { method := "POST"
          url := pyStr node.url ++ "/tools/" ++ tool_name
          headers := headersFor node
          body := Json.obj ([("input", payload)] ++ bodyPairs) }

/-- `response.raise_for_status()`: per the `requests` library it raises
`HTTPError` exactly for status codes in [400, 600) (4xx client errors and 5xx
server errors); informational and redirect statuses do not raise. -/
def raiseForStatus (status : Nat) : Except PyErr Unit :=
  if 400 ≤ status ∧ status < 600 then Except.error (PyErr.httpStatusError status)
  else Except.ok ()

/-- The response-handling phase of `invoke_tool` (lines 158-159):
`raise_for_status`, then `response.json() if response.content else {"ok": True}`. -/
def invokeToolResponse (resp : HttpResponse) : Except PyErr Json :=
  match raiseForStatus resp.status with
  | Except.error e => Except.error e
  | Except.ok _ =>
    match resp.body with
    | ResponseBody.empty => Except.ok (Json.obj [("ok", Json.bool true)])
    | ResponseBody.json j => Except.ok j
    | ResponseBody.invalid => Except.error PyErr.jsonDecodeError

/-- `invoke_tool` (lines 133-159), with the network modelled as a transport
function: the single `requests.post` call maps the built request to a
response (single attempt, no retry).  `invoke_tool` never mutates the
registry state, as in the source. -/
def invoke_tool (c : MCPClient) (tool_name : String) (payload : Json)
    (node_name : Option String) (context : Option Json)
    (http : HttpRequest → HttpResponse) : Except PyErr Json :=
  match invokeToolRequest c tool_name payload node_name context with
  | Except.error e => Except.error e
  | Except.ok req => invokeToolResponse (http req)

end MCP

namespace MCP

/-! ## Dictionary lemmas -/

theorem dictContains_iff_mem_keys {α : Type} {d : PyDict α} {k : String} :
    dictContains d k = true ↔ k ∈ d.map (fun p => p.1) := by
  simp only [dictContains, List.any_eq_true, beq_iff_eq, List.mem_map]

theorem dictGet_eq_none_of_not_contains {α : Type} {d : PyDict α} {k : String}
    (h : dictContains d k = false) : dictGet d k = none := by
  have hall : ∀ p ∈ d, ¬(p.1 == k) = true := by
    intro p hp hbe
    have hc : dictContains d k = true := by
      simp only [dictContains, List.any_eq_true]
      exact ⟨p, hp, hbe⟩
    rw [hc] at h
    exact Bool.true_eq_false.mp h
  simp only [dictGet]
  rw [List.find?_eq_none.mpr hall]
  rfl

theorem keys_dictSet {α : Type} (d : PyDict α) (k : String) (v : α) :
    (dictSet d k v).map (fun p => p.1) =
      if dictContains d k then d.map (fun p => p.1)
      else d.map (fun p => p.1) ++ [k] := by
  simp only [dictSet]
  split
  · simp only [List.map_map]
    apply List.map_congr_left
    intro p _
    by_cases h : p.1 = k <;> simp [h]
  · simp

theorem mem_dictSet {α : Type} {d : PyDict α} {k : String} {v : α} {p : String × α}
    (h : p ∈ dictSet d k v) : p = (k, v) ∨ p ∈ d := by
  simp only [dictSet] at h
  split at h
  · rcases List.mem_map.mp h with ⟨q, hq, hqe⟩
    by_cases hk : q.1 = k
    · left
      rw [if_pos (by simpa using hk)] at hqe
      exact hqe.symm
    · right
      rw [if_neg (by simpa using hk)] at hqe
      exact hqe ▸ hq
  · rcases List.mem_append.mp h with hm | hm
    · right; exact hm
    · left; simpa using hm

end MCP

namespace MCP

theorem boolEqOfIff {a b : Bool} (h : a = true ↔ b = true) : a = b := by
  cases a <;> cases b <;> simp_all

theorem dictContains_dictSet {α : Type} (d : PyDict α) (k : String) (v : α) (x : String) :
    dictContains (dictSet d k v) x = (dictContains d x || (x == k)) := by
  rcases Bool.eq_false_or_eq_true (dictContains d k) with hk | hk
  · have hkeys : (dictSet d k v).map (fun p => p.1) = d.map (fun p => p.1) := by
      rw [keys_dictSet, if_pos hk]
    apply boolEqOfIff
    rw [dictContains_iff_mem_keys, hkeys, ← dictContains_iff_mem_keys]
    simp only [Bool.or_eq_true, beq_iff_eq]
    constructor
    · exact Or.inl
    · rintro (h | h)
      · exact h
      · subst h
        exact hk
  · have happ : dictSet d k v = d ++ [(k, v)] := by
      simp only [dictSet]
      rw [if_neg (by simp [hk])]
    rw [happ]
    apply boolEqOfIff
    simp only [dictContains, List.any_append, List.any_cons, List.any_nil,
      Bool.or_false, Bool.or_eq_true, beq_iff_eq]
    constructor
    · rintro (h | h)
      · exact Or.inl h
      · exact Or.inr h.symm
    · rintro (h | h)
      · exact Or.inl h
      · exact Or.inr h.symm

theorem dictContains_dictDel {α : Type} (d : PyDict α) (k x : String) :
    dictContains (dictDel d k) x = (!(x == k) && dictContains d x) := by
  apply boolEqOfIff
  simp only [Bool.and_eq_true, Bool.not_eq_true', beq_eq_false_iff_ne, ne_eq,
    dictContains_iff_mem_keys, List.mem_map, dictDel, List.mem_filter, bne_iff_ne]
  constructor
  · rintro ⟨p, ⟨hp, hne⟩, he⟩
    exact ⟨by simpa [he] using hne, p, hp, he⟩
  · rintro ⟨hne, p, hp, he⟩
    exact ⟨p, ⟨hp, by simpa [he] using hne⟩, he⟩

theorem dictFirstKey_contains {α : Type} {d : PyDict α} {k : String}
    (h : dictFirstKey d = some k) : dictContains d k = true := by
  cases d with
  | nil => simp [dictFirstKey] at h
  | cons p rest =>
    simp only [dictFirstKey, List.head?_cons, Option.map_some] at h
    cases h
    simp [dictContains, List.any_cons]

theorem dictSet_eq_append {α : Type} {d : PyDict α} {k : String} (v : α)
    (h : dictContains d k = false) : dictSet d k v = d ++ [(k, v)] := by
  simp [dictSet, h]

theorem mem_dictSet_self {α : Type} (d : PyDict α) (k : String) (v : α) :
    (k, v) ∈ dictSet d k v := by
  simp only [dictSet]
  split
  next hc =>
    rw [dictContains_iff_mem_keys] at hc
    rcases List.mem_map.mp hc with ⟨p, hp, hpe⟩
    refine List.mem_map.mpr ⟨p, hp, ?_⟩
    rw [if_pos (by simpa using hpe)]
  next => simp

end MCP

namespace MCP

/-! ## Registry invariants and reachability -/

/-- The keys of the registry are pairwise distinct (automatic for a Python
dict; an invariant of the association-list model). -/
def KeysNodup {α : Type} (d : PyDict α) : Prop :=
  (d.map (fun p => p.1)).Nodup

/-- Every node is stored under its own name. -/
def NamesOk (d : PyDict MCPNode) : Prop :=
  ∀ p ∈ d, p.2.name = p.1

/-- Every stored node has a truthy (in particular non-empty) url value. -/
def UrlsOk (d : PyDict MCPNode) : Prop :=
  ∀ p ∈ d, jsonTruthy p.2.url = true

instance {α : Type} (d : PyDict α) : Decidable (KeysNodup d) :=
  List.nodupDecidable _

instance (d : PyDict MCPNode) : Decidable (NamesOk d) :=
  List.decidableBAll _ d

instance (d : PyDict MCPNode) : Decidable (UrlsOk d) :=
  List.decidableBAll _ d

/-- The active name, when set, is a key of the registry (the spec's central
registry invariant). -/
def activeOkB (c : MCPClient) : Bool :=
  match c.active_name with
  | some a => dictContains c.nodes a
  | none => true

/-- States reachable through the public lifecycle: a fresh client (empty
state, or any state successfully produced by `_load_state`) followed by any
sequence of successful `add_node` / `remove_node` / `set_active` calls. -/
inductive Reachable : MCPClient → Prop where
  | empty : Reachable ⟨[], none⟩
  | load (file : Option Json) (c : MCPClient) :
      loadState file = Except.ok c → Reachable c
  | add (c c' : MCPClient) (n u : String) (t : Option String) :
      Reachable c → add_node c n u t = Except.ok c' → Reachable c'
  | remove (c c' : MCPClient) (n : String) :
      Reachable c → remove_node c n = Except.ok c' → Reachable c'
  | setActive (c c' : MCPClient) (n : String) :
      Reachable c → set_active c n = Except.ok c' → Reachable c'

theorem keysNodup_dictSet {α : Type} {d : PyDict α} (k : String) (v : α)
    (h : KeysNodup d) : KeysNodup (dictSet d k v) := by
  unfold KeysNodup at *
  rw [keys_dictSet]
  split
  next => exact h
  next hc =>
    rw [List.nodup_append]
    refine ⟨h, List.nodup_singleton k, ?_⟩
    intro a ha hb
    simp only [List.mem_singleton] at hb
    subst hb
    exact absurd (dictContains_iff_mem_keys.mpr ha) (by simp [hc])

theorem keysNodup_dictDel {α : Type} {d : PyDict α} (k : String)
    (h : KeysNodup d) : KeysNodup (dictDel d k) := by
  unfold KeysNodup at *
  have hsub : List.Sublist (dictDel d k) d := List.filter_sublist d
  exact h.sublist (hsub.map (fun p => p.1))

theorem namesOk_dictSet {d : PyDict MCPNode} {k : String} {v : MCPNode}
    (h : NamesOk d) (hv : v.name = k) : NamesOk (dictSet d k v) := by
  intro p hp
  rcases mem_dictSet hp with he | hm
  · subst he
    exact hv
  · exact h p hm

theorem namesOk_dictDel {d : PyDict MCPNode} (k : String)
    (h : NamesOk d) : NamesOk (dictDel d k) := by
  intro p hp
  exact h p (List.mem_filter.mp hp).1

theorem urlsOk_dictSet {d : PyDict MCPNode} {k : String} {v : MCPNode}
    (h : UrlsOk d) (hv : jsonTruthy v.url = true) : UrlsOk (dictSet d k v) := by
  intro p hp
  rcases mem_dictSet hp with he | hm
  · subst he
    exact hv
  · exact h p hm

end MCP

namespace MCP

/-! ## Inversion of the successful operations -/

theorem add_node_ok {c c' : MCPClient} {n u : String} {t : Option String}
    (h : add_node c n u t = Except.ok c') :
    n ≠ "" ∧ u ≠ "" ∧
      c' = { nodes := dictSet c.nodes n ⟨n, Json.str (rstripSlashes u), tokenJson t⟩
             active_name :=
               if optStrTruthy c.active_name then c.active_name else some n } := by
  by_cases hn : n = ""
  · simp [add_node, hn] at h
  · by_cases hu : u = ""
    · simp [add_node, hn, hu] at h
    · refine ⟨hn, hu, ?_⟩
      simp only [add_node, beq_iff_eq, hn, hu, or_self, if_false, decide_eq_true_eq] at h
      rw [if_neg (by simp [hn, hu])] at h
      exact (Except.ok.injEq _ _).mp h |>.symm ▸ rfl

theorem remove_node_ok {c c' : MCPClient} {n : String}
    (h : remove_node c n = Except.ok c') :
    dictContains c.nodes n = true ∧
      c' = { nodes := dictDel c.nodes n
             active_name :=
               if c.active_name = some n then dictFirstKey (dictDel c.nodes n)
               else c.active_name } := by
  rcases Bool.eq_false_or_eq_true (dictContains c.nodes n) with hc | hc
  · refine ⟨hc, ?_⟩
    simp [remove_node, hc] at h
    exact h.symm
  · simp [remove_node, hc] at h

theorem set_active_ok {c c' : MCPClient} {n : String}
    (h : set_active c n = Except.ok c') :
    dictContains c.nodes n = true ∧ c' = { nodes := c.nodes, active_name := some n } := by
  rcases Bool.eq_false_or_eq_true (dictContains c.nodes n) with hc | hc
  · refine ⟨hc, ?_⟩
    simp [set_active, hc] at h
    exact h.symm
  · simp [set_active, hc] at h

end MCP

namespace MCP

/-! ## Invariant preservation -/

theorem activeOk_add {c c' : MCPClient} {n u : String} {t : Option String}
    (hok : activeOkB c = true) (h : add_node c n u t = Except.ok c') :
    activeOkB c' = true := by
  obtain ⟨-, -, rfl⟩ := add_node_ok h
  unfold activeOkB
  by_cases ht : optStrTruthy c.active_name = true
  · rw [if_pos ht]
    cases hc : c.active_name with
    | none => rfl
    | some a =>
      have hca : dictContains c.nodes a = true := by
        unfold activeOkB at hok
        rw [hc] at hok
        exact hok
      show dictContains (dictSet c.nodes n _) a = true
      rw [dictContains_dictSet, hca]
      rfl
  · rw [if_neg ht]
    show dictContains (dictSet c.nodes n _) n = true
    rw [dictContains_dictSet]
    simp

theorem activeOk_remove {c c' : MCPClient} {n : String}
    (hok : activeOkB c = true) (h : remove_node c n = Except.ok c') :
    activeOkB c' = true := by
  obtain ⟨hc, rfl⟩ := remove_node_ok h
  unfold activeOkB
  by_cases he : c.active_name = some n
  · rw [if_pos he]
    cases hf : dictFirstKey (dictDel c.nodes n) with
    | none => rfl
    | some k => exact dictFirstKey_contains hf
  · rw [if_neg he]
    cases ha : c.active_name with
    | none => rfl
    | some a =>
      show dictContains (dictDel c.nodes n) a = true
      have hca : dictContains c.nodes a = true := by
        unfold activeOkB at hok
        rw [ha] at hok
        exact hok
      have hne : a ≠ n := fun hh => he (by rw [ha, hh])
      rw [dictContains_dictDel]
      simp [hca, hne]

theorem activeOk_set {c c' : MCPClient} {n : String}
    (h : set_active c n = Except.ok c') : activeOkB c' = true := by
  obtain ⟨hc, rfl⟩ := set_active_ok h
  exact hc

theorem keysNodup_add {c c' : MCPClient} {n u : String} {t : Option String}
    (h1 : KeysNodup c.nodes) (h : add_node c n u t = Except.ok c') :
    KeysNodup c'.nodes := by
  obtain ⟨-, -, rfl⟩ := add_node_ok h
  exact keysNodup_dictSet _ _ h1

theorem namesOk_add {c c' : MCPClient} {n u : String} {t : Option String}
    (h2 : NamesOk c.nodes) (h : add_node c n u t = Except.ok c') :
    NamesOk c'.nodes := by
  obtain ⟨-, -, rfl⟩ := add_node_ok h
  exact namesOk_dictSet h2 rfl

theorem keysNodup_remove {c c' : MCPClient} {n : String}
    (h1 : KeysNodup c.nodes) (h : remove_node c n = Except.ok c') :
    KeysNodup c'.nodes := by
  obtain ⟨-, rfl⟩ := remove_node_ok h
  exact keysNodup_dictDel _ h1

theorem namesOk_remove {c c' : MCPClient} {n : String}
    (h2 : NamesOk c.nodes) (h : remove_node c n = Except.ok c') :
    NamesOk c'.nodes := by
  obtain ⟨-, rfl⟩ := remove_node_ok h
  exact namesOk_dictDel _ h2

theorem keysNodup_set {c c' : MCPClient} {n : String}
    (h1 : KeysNodup c.nodes) (h : set_active c n = Except.ok c') :
    KeysNodup c'.nodes := by
  obtain ⟨-, rfl⟩ := set_active_ok h
  exact h1

theorem namesOk_set {c c' : MCPClient} {n : String}
    (h2 : NamesOk c.nodes) (h : set_active c n = Except.ok c') :
    NamesOk c'.nodes := by
  obtain ⟨-, rfl⟩ := set_active_ok h
  exact h2

theorem loadEntry_inv {acc : PyDict MCPNode} (p : String × Json)
    (h1 : KeysNodup acc) (h2 : NamesOk acc) (h3 : UrlsOk acc) :
    KeysNodup (loadEntry acc p) ∧ NamesOk (loadEntry acc p) ∧
      UrlsOk (loadEntry acc p) := by
  unfold loadEntry
  split
  next mpairs =>
    dsimp only
    split
    next hurl =>
      exact ⟨keysNodup_dictSet _ _ h1, namesOk_dictSet h2 rfl,
        urlsOk_dictSet h3 hurl⟩
    next => exact ⟨h1, h2, h3⟩
  next => exact ⟨h1, h2, h3⟩

theorem loadLoop_inv (entries : List (String × Json)) :
    ∀ acc : PyDict MCPNode, KeysNodup acc → NamesOk acc → UrlsOk acc →
      KeysNodup (entries.foldl loadEntry acc) ∧
        NamesOk (entries.foldl loadEntry acc) ∧
        UrlsOk (entries.foldl loadEntry acc) := by
  induction entries with
  | nil => exact fun acc h1 h2 h3 => ⟨h1, h2, h3⟩
  | cons p rest ih =>
    intro acc h1 h2 h3
    simp only [List.foldl_cons]
    obtain ⟨g1, g2, g3⟩ := loadEntry_inv p h1 h2 h3
    exact ih _ g1 g2 g3

end MCP

namespace MCP

theorem loadState_ok_inv {file : Option Json} {c : MCPClient}
    (h : loadState file = Except.ok c) :
    KeysNodup c.nodes ∧ NamesOk c.nodes ∧ UrlsOk c.nodes ∧ activeOkB c = true := by
  have hnil : KeysNodup ([] : PyDict MCPNode) ∧ NamesOk [] ∧ UrlsOk [] :=
    ⟨List.nodup_nil, fun p hp => absurd hp (List.not_mem_nil p),
      fun p hp => absurd hp (List.not_mem_nil p)⟩
  cases file with
  | none =>
    obtain rfl := ((Except.ok.injEq _ _).mp h).symm
    exact ⟨hnil.1, hnil.2.1, hnil.2.2, rfl⟩
  | some payload =>
    simp only [loadState] at h
    split at h
    next npairs hnv =>
      split at h
      next pd hpd =>
        obtain rfl := ((Except.ok.injEq _ _).mp h).symm
        obtain ⟨g1, g2, g3⟩ :=
          loadLoop_inv (jsonObjToDict npairs) [] hnil.1 hnil.2.1 hnil.2.2
        refine ⟨g1, g2, g3, ?_⟩
        unfold activeOkB
        dsimp only
        split
        next a heq =>
          split at heq
          next x hax =>
            split at heq
            next hc =>
              cases heq
              exact hc
            next => cases heq
          next => cases heq
        next => rfl
      next => exact absurd h (by simp)
    next => exact absurd h (by simp)

/-- Every reachable state satisfies the structural registry invariants:
distinct keys, each node stored under its own name, and an active name that
references a present node. -/
theorem reachable_inv {c : MCPClient} (h : Reachable c) :
    KeysNodup c.nodes ∧ NamesOk c.nodes ∧ activeOkB c = true := by
  induction h with
  | empty =>
    exact ⟨List.nodup_nil, fun p hp => absurd hp (List.not_mem_nil p), rfl⟩
  | load file c hload =>
    obtain ⟨g1, g2, -, g4⟩ := loadState_ok_inv hload
    exact ⟨g1, g2, g4⟩
  | add c c' n u t _ hop ih =>
    exact ⟨keysNodup_add ih.1 hop, namesOk_add ih.2.1 hop,
      activeOk_add ih.2.2 hop⟩
  | remove c c' n _ hop ih =>
    exact ⟨keysNodup_remove ih.1 hop, namesOk_remove ih.2.1 hop,
      activeOk_remove ih.2.2 hop⟩
  | setActive c c' n _ hop ih =>
    exact ⟨keysNodup_set ih.1 hop, namesOk_set ih.2.1 hop, activeOk_set hop⟩

end MCP

namespace MCP

/-! ## Round-trip: `_save_state` followed by `_load_state` -/

theorem foldl_dictSet_eq_append {α : Type} (l : PyDict α) :
    ∀ acc : PyDict α,
      (∀ k, k ∈ acc.map (fun p => p.1) → k ∉ l.map (fun p => p.1)) →
      KeysNodup l →
      l.foldl (fun d p => dictSet d p.1 p.2) acc = acc ++ l := by
  induction l with
  | nil =>
    intro acc _ _
    simp
  | cons q rest ih =>
    intro acc hdisj hnd
    simp only [List.foldl_cons]
    have hqnotacc : dictContains acc q.1 = false := by
      rcases Bool.eq_false_or_eq_true (dictContains acc q.1) with hc | hc
      · exact absurd (by simp : q.1 ∈ (q :: rest).map (fun p => p.1))
          (hdisj q.1 (dictContains_iff_mem_keys.mp hc))
      · exact hc
    have hndc : (q.1 :: rest.map (fun p => p.1)).Nodup := by
      simpa [KeysNodup] using hnd
    have hnd' : KeysNodup rest := (List.nodup_cons.mp hndc).2
    have hq1 : q.1 ∉ rest.map (fun p => p.1) := (List.nodup_cons.mp hndc).1
    have hdisj' : ∀ k, k ∈ (acc ++ [q]).map (fun p => p.1) →
        k ∉ rest.map (fun p => p.1) := by
      intro k hk
      simp only [List.map_append, List.mem_append, List.map_cons, List.map_nil,
        List.mem_singleton, List.mem_cons] at hk
      rcases hk with hk | hk
      · intro hmem
        exact hdisj k hk (by simp [hmem])
      · simp only [List.not_mem_nil, or_false] at hk
        subst hk
        exact hq1
    rw [dictSet_eq_append _ hqnotacc, ih (acc ++ [q]) hdisj' hnd']
    simp

theorem jsonObjToDict_eq_self {l : List (String × Json)} (h : KeysNodup l) :
    jsonObjToDict l = l := by
  unfold jsonObjToDict
  rw [foldl_dictSet_eq_append l [] (by simp) h]
  rfl

theorem loadLoop_save (l : PyDict MCPNode) :
    ∀ acc : PyDict MCPNode,
      (∀ k, k ∈ acc.map (fun p => p.1) → k ∉ l.map (fun p => p.1)) →
      KeysNodup l → NamesOk l → UrlsOk l →
      (l.map (fun p => (p.1, asdictNode p.2))).foldl loadEntry acc = acc ++ l := by
  induction l with
  | nil =>
    intro acc _ _ _ _
    simp
  | cons q rest ih =>
    intro acc hdisj hnd hnm hurl
    obtain ⟨k, v⟩ := q
    obtain ⟨nm, u, tk⟩ := v
    have hurlq : jsonTruthy u = true := hurl (k, ⟨nm, u, tk⟩) (by simp)
    have hnmq : nm = k := hnm (k, ⟨nm, u, tk⟩) (by simp)
    subst hnmq
    simp only [List.map_cons, List.foldl_cons]
    have hentry : loadEntry acc (nm, asdictNode ⟨nm, u, tk⟩) =
        dictSet acc nm ⟨nm, u, tk⟩ := by
      have hred : loadEntry acc (nm, asdictNode ⟨nm, u, tk⟩) =
          if jsonTruthy u then dictSet acc nm ⟨nm, u, tk⟩ else acc := rfl
      rw [hred, if_pos hurlq]
    rw [hentry]
    have hqnotacc : dictContains acc nm = false := by
      rcases Bool.eq_false_or_eq_true (dictContains acc nm) with hc | hc
      · exact absurd (by simp : nm ∈ ((nm, MCPNode.mk nm u tk) :: rest).map (fun p => p.1))
          (hdisj nm (dictContains_iff_mem_keys.mp hc))
      · exact hc
    have hndc : (nm :: rest.map (fun p => p.1)).Nodup := by
      simpa [KeysNodup] using hnd
    have hnd' : KeysNodup rest := (List.nodup_cons.mp hndc).2
    have hq1 : nm ∉ rest.map (fun p => p.1) := (List.nodup_cons.mp hndc).1
    have hnm' : NamesOk rest := fun p hp => hnm p (by simp [hp])
    have hurl' : UrlsOk rest := fun p hp => hurl p (by simp [hp])
    have hdisj' : ∀ x, x ∈ (acc ++ [(nm, MCPNode.mk nm u tk)]).map (fun p => p.1) →
        x ∉ rest.map (fun p => p.1) := by
      intro x hx
      simp only [List.map_append, List.mem_append, List.map_cons, List.map_nil,
        List.mem_singleton, List.mem_cons] at hx
      rcases hx with hx | hx
      · intro hmem
        exact hdisj x hx (by simp [hmem])
      · simp only [List.not_mem_nil, or_false] at hx
        subst hx
        exact hq1
    rw [dictSet_eq_append _ hqnotacc,
      ih (acc ++ [(nm, MCPNode.mk nm u tk)]) hdisj' hnd' hnm' hurl']
    simp

end MCP

namespace MCP

/-- Reduction of `_load_state` on a payload of exactly the shape written by
`_save_state`. -/
theorem loadState_saved_shape (A : Json) (L : List (String × Json)) :
    loadState (some (Json.obj [("active", A), ("nodes", Json.obj L)])) =
      Except.ok
        { nodes := loadNodesLoop (jsonObjToDict L)
          active_name :=
            match A with
            | Json.str a =>
              if dictContains (loadNodesLoop (jsonObjToDict L)) a then some a
              else none
            | _ => none } := by
  have h1 : jsonObjToDict [("active", A), ("nodes", Json.obj L)] =
      [("active", A), ("nodes", Json.obj L)] := by
    simp [jsonObjToDict, dictSet, dictContains]
  have h2 : dictGet [("active", A), ("nodes", Json.obj L)] "nodes" =
      some (Json.obj L) := by
    simp [dictGet, List.find?]
  have h3 : dictGet [("active", A), ("nodes", Json.obj L)] "active" = some A := by
    simp [dictGet, List.find?]
  simp only [loadState, h1, h2, h3, Option.getD_some]
  cases A <;> rfl

/-- Persist-then-reload is the identity on every well-formed registry state
whose node urls are all truthy. -/
theorem loadState_saveState {c : MCPClient}
    (hnd : KeysNodup c.nodes) (hnm : NamesOk c.nodes) (hurl : UrlsOk c.nodes)
    (hact : activeOkB c = true) :
    loadState (some (saveState c)) = Except.ok c := by
  have hL : KeysNodup (c.nodes.map (fun p => (p.1, asdictNode p.2))) := by
    unfold KeysNodup at hnd ⊢
    simpa [List.map_map, Function.comp] using hnd
  have hloop :
      loadNodesLoop (jsonObjToDict (c.nodes.map (fun p => (p.1, asdictNode p.2)))) =
        c.nodes := by
    rw [jsonObjToDict_eq_self hL]
    have := loadLoop_save c.nodes [] (by simp) hnd hnm hurl
    simpa [loadNodesLoop] using this
  cases hc : c.active_name with
  | none =>
    have hsave : saveState c =
        Json.obj [("active", Json.null),
          ("nodes", Json.obj (c.nodes.map (fun p => (p.1, asdictNode p.2))))] := by
      simp [saveState, hc]
    rw [hsave, loadState_saved_shape, hloop]
    rw [← hc]
  | some a =>
    have hca : dictContains c.nodes a = true := by
      unfold activeOkB at hact
      rw [hc] at hact
      exact hact
    have hsave : saveState c =
        Json.obj [("active", Json.str a),
          ("nodes", Json.obj (c.nodes.map (fun p => (p.1, asdictNode p.2))))] := by
      simp [saveState, hc, hca]
    rw [hsave, loadState_saved_shape, hloop]
    simp only [hca, if_true]
    rw [← hc]

/-! ## `list_nodes` membership -/

theorem mem_insertSorted {x n : MCPNode} {l : List MCPNode} :
    n ∈ insertSorted x l ↔ n = x ∨ n ∈ l := by
  induction l with
  | nil => simp [insertSorted]
  | cons y ys ih =>
    simp only [insertSorted]
    split
    · simp [List.mem_cons]
    · simp only [List.mem_cons, ih]
      tauto

theorem mem_sortFold {l : List MCPNode} :
    ∀ acc : List MCPNode, ∀ n : MCPNode,
      n ∈ l.foldl (fun acc m => insertSorted m acc) acc ↔ n ∈ acc ∨ n ∈ l := by
  induction l with
  | nil => simp
  | cons y ys ih =>
    intro acc n
    simp only [List.foldl_cons, ih, mem_insertSorted, List.mem_cons]
    tauto

/-- A node appears in `list_nodes` exactly when it is a value of the
registry. -/
theorem mem_list_nodes {c : MCPClient} {n : MCPNode} :
    n ∈ list_nodes c ↔ ∃ p ∈ c.nodes, p.2 = n := by
  unfold list_nodes
  rw [mem_sortFold]
  simp only [List.not_mem_nil, false_or, List.mem_map]

end MCP

namespace MCP

/-! ## Fixtures for witnesses and counterexamples -/

/-- A registry with a single token-less node "a" (url "http://x"), active. -/
def sampleClient : MCPClient :=
  ⟨[("a", ⟨"a", Json.str "http://x", Json.null⟩)], some "a"⟩

/-- A transport that always answers 200 with an empty body. -/
def httpOk : HttpRequest → HttpResponse :=
  fun _ => ⟨200, ResponseBody.empty⟩

/-! ## C1 -/

/-- C1 counterexample: with node "a" registered and active, invoking a tool
with the explicit unregistered node name "ghost" fails with the
`No active MCP node configured` error (`noActiveNode`), which is not the
`NotFound` error the claim requires: line 144 turns a failed
`self.nodes.get(node_name)` into the same `None` as a missing active node,
and line 146 raises the `NoActiveNode` message for both. -/
theorem invoke_tool_ghost_fails_noActiveNode :
    invoke_tool sampleClient "t" (Json.obj []) (some "ghost") none httpOk =
      Except.error PyErr.noActiveNode ∧
    (Except.error PyErr.noActiveNode : Except PyErr Json) ≠
      Except.error (PyErr.nodeNotFound "ghost") := by
  refine ⟨rfl, ?_⟩
  intro h
  simp at h

/-- C1 (amended): for every registry and every non-empty tool_name and
payload, calling invoke_tool with an explicit node_name that is not
registered fails with the NoActiveNode error
(`ValueError("No active MCP node configured")`), not with NotFound,
regardless of whether an active node is set — the code does not distinguish
an unregistered explicit node name from the absence of an active node. -/
theorem invoke_tool_unregistered_name (c : MCPClient) (tool : String)
    (payload : Json) (ghost : String) (ctx : Option Json)
    (http : HttpRequest → HttpResponse)
    (htool : tool ≠ "") (hghost : ghost ≠ "")
    (habs : dictContains c.nodes ghost = false) :
    invoke_tool c tool payload (some ghost) ctx http =
      Except.error PyErr.noActiveNode := by
  have hres : resolveNode c (some ghost) = none := by
    show (if (ghost != "") = true then dictGet c.nodes ghost
      else get_active_node c) = none
    rw [if_pos (by simpa using hghost)]
    exact dictGet_eq_none_of_not_contains habs
  have hreq : invokeToolRequest c tool payload (some ghost) ctx =
      Except.error PyErr.noActiveNode := by
    unfold invokeToolRequest
    rw [if_neg (by simpa using htool), hres]
  unfold invoke_tool
  rw [hreq]

theorem invoke_tool_unregistered_name_witness :
    invoke_tool sampleClient "t" (Json.num 1) (some "ghost") none httpOk =
      Except.error PyErr.noActiveNode :=
  invoke_tool_unregistered_name sampleClient "t" (Json.num 1) "ghost" none httpOk
    (by decide) (by decide) (by decide)

/-! ## C2 -/

/-- C2: the claim says a valid JSON persisted file of any wrong shape loads
as an empty registry with no error; the code instead raises.  At the
persisted top-level list `[1, 2, 3]`, line 56 (`payload.get("active")`)
raises `AttributeError` out of the constructor; at `{"nodes": []}`, line 48
(`nodes_payload.items()`) raises `AttributeError`.  A missing or unparseable
file does load as the empty registry, as the claim says. -/
theorem loadState_raises_on_wrong_shape :
    loadState (some (Json.arr [Json.num 1, Json.num 2, Json.num 3])) =
      Except.error (PyErr.attributeError "get") ∧
    loadState (some (Json.obj [("nodes", Json.arr [])])) =
      Except.error (PyErr.attributeError "items") ∧
    loadState none = Except.ok ⟨[], none⟩ :=
  ⟨rfl, rfl, rfl⟩

/-! ## C3 -/

/-- Modelled from the spec words for C3 ("url equal to `u` stripped of a
trailing slash"): removes one trailing slash when present.  Stated only to
compare with the source's `url.rstrip("/")`, which removes every trailing
slash. -/
def specStripTrailingSlash (s : String) : String :=
  if s.data.getLast? = some '/' then String.mk s.data.dropLast else s

/-- C3 counterexample: adding url "x//" stores url "x" (`rstrip("/")` strips
both slashes), while the claim's "u with a trailing slash stripped" is "x/";
the stored url differs from the claimed one. -/
theorem add_node_double_slash_counterexample :
    add_node ⟨[], none⟩ "a" "x//" none =
      Except.ok ⟨[("a", ⟨"a", Json.str "x", Json.null⟩)], some "a"⟩ ∧
    (list_nodes ⟨[("a", ⟨"a", Json.str "x", Json.null⟩)], some "a"⟩).map
      MCPNode.url = [Json.str "x"] ∧
    specStripTrailingSlash "x//" = "x/" ∧
    Json.str "x" ≠ Json.str (specStripTrailingSlash "x//") := by
  refine ⟨rfl, rfl, by decide, ?_⟩
  intro h
  injection h with h2
  rw [show specStripTrailingSlash "x//" = "x/" from by decide] at h2
  exact absurd h2 (by decide)

/-- C3 (amended): for every registry and non-empty name and url, add_node
succeeds and list_nodes then contains a node with that name, the url with
ALL trailing slashes stripped (`url.rstrip("/")`), and the given token;
add_node with an empty name or url fails with InvalidArgument (and, the
error being raised before any mutation, adds nothing). -/
theorem add_node_spec (c : MCPClient) (n u : String) (t : Option String) :
    (n ≠ "" → u ≠ "" →
      ∃ c', add_node c n u t = Except.ok c' ∧
        ∃ nd ∈ list_nodes c', nd.name = n ∧
          nd.url = Json.str (rstripSlashes u) ∧ nd.token = tokenJson t) ∧
    ((n = "" ∨ u = "") → add_node c n u t = Except.error PyErr.invalidNameUrl) := by
  constructor
  · intro hn hu
    refine ⟨{ nodes := dictSet c.nodes n ⟨n, Json.str (rstripSlashes u), tokenJson t⟩
              active_name :=
                if optStrTruthy c.active_name then c.active_name else some n },
      ?_, ⟨n, Json.str (rstripSlashes u), tokenJson t⟩, ?_, rfl, rfl, rfl⟩
    · unfold add_node
      rw [if_neg (by simp [hn, hu])]
    · rw [mem_list_nodes]
      exact ⟨(n, ⟨n, Json.str (rstripSlashes u), tokenJson t⟩),
        mem_dictSet_self c.nodes n _, rfl⟩
  · intro h
    unfold add_node
    rw [if_pos (by rcases h with h | h <;> simp [h])]

theorem add_node_spec_witness :
    (∃ c', add_node ⟨[], none⟩ "b" "v/" (some "s") = Except.ok c' ∧
      ∃ nd ∈ list_nodes c', nd.name = "b" ∧
        nd.url = Json.str (rstripSlashes "v/") ∧ nd.token = tokenJson (some "s")) ∧
    add_node ⟨[], none⟩ "" "v" none = Except.error PyErr.invalidNameUrl :=
  ⟨(add_node_spec ⟨[], none⟩ "b" "v/" (some "s")).1 (by decide) (by decide),
   (add_node_spec ⟨[], none⟩ "" "v" none).2 (Or.inl rfl)⟩

end MCP

namespace MCP

/-! ## C4 -/

/-- C4: the invariant "the active name, if set, references a registered
node" is preserved by every registry operation from every state satisfying
it.  The remove case covers the claim's "in particular": when the active
node is removed, the new active name is `next(iter(nodes), None)` — a
remaining key, or `None` when the registry became empty (an active name can
never dangle). -/
theorem registry_active_invariant (c : MCPClient) (hok : activeOkB c = true) :
    (∀ n u t c', add_node c n u t = Except.ok c' → activeOkB c' = true) ∧
    (∀ n c', remove_node c n = Except.ok c' → activeOkB c' = true) ∧
    (∀ n c', set_active c n = Except.ok c' → activeOkB c' = true) :=
  ⟨fun _ _ _ _ h => activeOk_add hok h,
   fun _ _ h => activeOk_remove hok h,
   fun _ _ h => activeOk_set h⟩

theorem registry_active_invariant_witness :
    activeOkB sampleClient = true ∧
    activeOkB ⟨[("a", ⟨"a", Json.str "http://x", Json.null⟩),
      ("b", ⟨"b", Json.str "u", Json.null⟩)], some "a"⟩ = true :=
  ⟨by decide,
   (registry_active_invariant sampleClient (by decide)).1 "b" "u" none _ rfl⟩

/-! ## C5 -/

/-- C5 counterexample: the state reached by `add_node("a", "/")` (a url the
source normalises to the empty string) does not round-trip: `_load_state`
skips the saved node because its url is falsy (`if not url: continue`), so
the reloaded registry is empty and has no active name, while `list_nodes`
before persistence had one node. -/
theorem roundtrip_counterexample :
    add_node ⟨[], none⟩ "a" "/" none =
      Except.ok ⟨[("a", ⟨"a", Json.str "", Json.null⟩)], some "a"⟩ ∧
    loadState (some (saveState ⟨[("a", ⟨"a", Json.str "", Json.null⟩)], some "a"⟩)) =
      Except.ok ⟨[], none⟩ ∧
    list_nodes ⟨[("a", ⟨"a", Json.str "", Json.null⟩)], some "a"⟩ ≠
      list_nodes ⟨[], none⟩ := by
  refine ⟨rfl, rfl, ?_⟩
  intro h
  simp [list_nodes, insertSorted] at h

/-- C5 (amended): for every reachable registry state all of whose stored
node urls are truthy (non-empty) — i.e. excluding only states in which a
node was added with a url consisting solely of slashes — serialising with
`_save_state` and loading the encoding into a fresh registry reproduces the
very same state, hence the same `list_nodes` result and active name. -/
theorem roundtrip_reachable (c : MCPClient) (hr : Reachable c)
    (hurl : UrlsOk c.nodes) :
    ∃ c', loadState (some (saveState c)) = Except.ok c' ∧
      list_nodes c' = list_nodes c ∧ c'.active_name = c.active_name := by
  obtain ⟨h1, h2, h3⟩ := reachable_inv hr
  exact ⟨c, loadState_saveState h1 h2 hurl h3, rfl, rfl⟩

theorem roundtrip_reachable_witness :
    ∃ c', loadState (some (saveState sampleClient)) = Except.ok c' ∧
      list_nodes c' = list_nodes sampleClient ∧
      c'.active_name = sampleClient.active_name :=
  roundtrip_reachable sampleClient
    (Reachable.add ⟨[], none⟩ sampleClient "a" "http://x" none Reachable.empty rfl)
    (by decide)

/-! ## C6 -/

theorem get_active_node_empty (x : Option String) :
    get_active_node ⟨[], x⟩ = none := by
  unfold get_active_node
  cases x with
  | none => rfl
  | some a =>
    dsimp only
    split <;> rfl

/-- C6: removing the active node when exactly one other node is registered
makes that other node active (it is `next(iter(nodes))`, the only remaining
key); removing the only registered node leaves `get_active_node()` returning
none; removing an unregistered name fails with NotFound (raised on line 89,
before any mutation, so nothing changes). -/
theorem remove_node_spec (c : MCPClient) :
    (∀ a b na nb, a ≠ b → c.active_name = some a →
      (c.nodes = [(a, na), (b, nb)] ∨ c.nodes = [(b, nb), (a, na)]) →
      remove_node c a = Except.ok { nodes := [(b, nb)], active_name := some b }) ∧
    (∀ a na, c.nodes = [(a, na)] →
      ∃ c', remove_node c a = Except.ok c' ∧ get_active_node c' = none) ∧
    (∀ n, dictContains c.nodes n = false →
      remove_node c n = Except.error (PyErr.nodeNotFound n)) := by
  refine ⟨?_, ?_, ?_⟩
  · intro a b na nb hab hactive hcase
    have hcont : dictContains c.nodes a = true := by
      rcases hcase with h | h <;> rw [h] <;> simp [dictContains]
    have hdel : dictDel c.nodes a = [(b, nb)] := by
      rcases hcase with h | h <;> rw [h] <;>
        simp [dictDel, bne_iff_ne, Ne.symm hab]
    unfold remove_node
    rw [if_neg (by simp [hcont]), hdel, hactive]
    simp [dictFirstKey]
  · intro a na h
    have hcont : dictContains c.nodes a = true := by
      rw [h]
      simp [dictContains]
    have hdel : dictDel c.nodes a = [] := by
      rw [h]
      simp [dictDel]
    unfold remove_node
    rw [if_neg (by simp [hcont]), hdel]
    exact ⟨_, rfl, get_active_node_empty _⟩
  · intro n hn
    unfold remove_node
    rw [if_pos (by simp [hn])]

theorem remove_node_spec_witness :
    remove_node ⟨[("a", ⟨"a", Json.str "u", Json.null⟩),
        ("b", ⟨"b", Json.str "v", Json.null⟩)], some "a"⟩ "a" =
      Except.ok { nodes := [("b", ⟨"b", Json.str "v", Json.null⟩)]
                  active_name := some "b" } ∧
    (∃ c', remove_node ⟨[("a", ⟨"a", Json.str "u", Json.null⟩)], some "a"⟩ "a" =
      Except.ok c' ∧ get_active_node c' = none) ∧
    remove_node ⟨[], none⟩ "g" = Except.error (PyErr.nodeNotFound "g") :=
  ⟨(remove_node_spec _).1 "a" "b" ⟨"a", Json.str "u", Json.null⟩
      ⟨"b", Json.str "v", Json.null⟩ (by decide) rfl (Or.inl rfl),
   (remove_node_spec _).2.1 "a" ⟨"a", Json.str "u", Json.null⟩ rfl,
   (remove_node_spec _).2.2 "g" (by decide)⟩

end MCP

namespace MCP

/-! ## C7 -/

/-- C7 counterexample: `raise_for_status` raises only for statuses in
[400, 600), so an HTTP 304 — a non-2xx status — does not fail with
NetworkError: the body is parsed and returned as a success. -/
theorem invoke_response_304_counterexample :
    invokeToolResponse ⟨304, ResponseBody.json (Json.num 7)⟩ =
      Except.ok (Json.num 7) ∧
    ¬(200 ≤ 304 ∧ 304 < 300) :=
  ⟨rfl, by decide⟩

/-- C7 (amended): for a resolved node and non-empty tool name, invoke_tool's
outcome is determined by the single HTTP response (one `requests.post`
call, no retry): a 4xx or 5xx status (the statuses `raise_for_status`
treats as errors — not every non-2xx status) fails with NetworkError; for
any other status, an empty body returns `{"ok": true}` and a non-empty JSON
body is returned parsed, unchanged. -/
theorem invoke_tool_response_spec (c : MCPClient) (tool : String)
    (payload : Json) (nn : Option String) (ctx : Option Json)
    (http : HttpRequest → HttpResponse) (req : HttpRequest)
    (hreq : invokeToolRequest c tool payload nn ctx = Except.ok req) :
    (400 ≤ (http req).status ∧ (http req).status < 600 →
      invoke_tool c tool payload nn ctx http =
        Except.error (PyErr.httpStatusError (http req).status)) ∧
    (¬(400 ≤ (http req).status ∧ (http req).status < 600) →
      ((http req).body = ResponseBody.empty →
        invoke_tool c tool payload nn ctx http =
          Except.ok (Json.obj [("ok", Json.bool true)])) ∧
      (∀ j, (http req).body = ResponseBody.json j →
        invoke_tool c tool payload nn ctx http = Except.ok j)) := by
  unfold invoke_tool
  rw [hreq]
  dsimp only
  refine ⟨?_, fun hs => ⟨?_, ?_⟩⟩
  · intro hs
    unfold invokeToolResponse raiseForStatus
    rw [if_pos hs]
  · intro hb
    unfold invokeToolResponse raiseForStatus
    rw [if_neg hs]
    dsimp only
    rw [hb]
  · intro j hb
    unfold invokeToolResponse raiseForStatus
    rw [if_neg hs]
    dsimp only
    rw [hb]

theorem invoke_tool_response_spec_witness :
    invoke_tool sampleClient "t" (Json.obj []) none none
      (fun _ => ⟨500, ResponseBody.empty⟩) =
      Except.error (PyErr.httpStatusError 500) :=
  (invoke_tool_response_spec sampleClient "t" (Json.obj []) none none
    (fun _ => ⟨500, ResponseBody.empty⟩)
    ⟨"POST", "http://x/tools/t", [("Content-Type", "application/json")],
      Json.obj [("input", Json.obj [])]⟩ rfl).1 (by decide)

/-! ## C8 -/

/-- C8: `set_active` on an unregistered name fails with NotFound — the
`raise` on line 97 precedes the assignment, so in this functional embedding
the error result means the state is the unchanged input state; and
`invoke_tool` with an empty tool name fails with InvalidArgument in the
request-building phase, before any transport function is consulted (and
`invoke_tool` has no state output at all, as in the source, which never
mutates the registry there). -/
theorem set_active_and_invoke_validation (c : MCPClient) (n : String) :
    (dictContains c.nodes n = false →
      set_active c n = Except.error (PyErr.nodeNotFound n)) ∧
    (∀ payload nn ctx,
      invokeToolRequest c "" payload nn ctx =
        Except.error PyErr.toolNameRequired ∧
      ∀ http : HttpRequest → HttpResponse,
        invoke_tool c "" payload nn ctx http =
          Except.error PyErr.toolNameRequired) := by
  constructor
  · intro hn
    unfold set_active
    rw [if_pos (by simp [hn])]
  · intro payload nn ctx
    exact ⟨rfl, fun http => rfl⟩

theorem set_active_and_invoke_validation_witness :
    set_active sampleClient "ghost" = Except.error (PyErr.nodeNotFound "ghost") ∧
    invoke_tool sampleClient "" (Json.num 1) none none httpOk =
      Except.error PyErr.toolNameRequired :=
  ⟨(set_active_and_invoke_validation sampleClient "ghost").1 (by decide),
   ((set_active_and_invoke_validation sampleClient "ghost").2
     (Json.num 1) none none).2 httpOk⟩

end MCP

namespace MCP

/-! ## C9 -/

/-- C9 counterexample: a supplied but empty context dict is dropped from the
envelope — line 149 tests `if context:` (truthiness), not `if context is not
None:` — so the body is `{"input": payload}` without the claimed
`"context"` member. -/
theorem context_empty_dict_omitted :
    (invokeToolRequest sampleClient "t" (Json.num 1) none
      (some (Json.obj []))).map (fun r => r.body) =
      Except.ok (Json.obj [("input", Json.num 1)]) ∧
    Json.obj [("input", Json.num 1)] ≠
      Json.obj [("input", Json.num 1), ("context", Json.obj [])] := by
  refine ⟨rfl, ?_⟩
  intro h
  injection h with h2
  simp at h2

/-- C9 (amended): for every invocation on a resolved node, the request is a
POST to `str(node.url) + "/tools/" + tool_name`; the body is
`{"input": payload, "context": context}` whenever the supplied context is
truthy (non-empty), and `{"input": payload}` when the context is absent or
falsy; the `Authorization: Bearer <token>` header is attached exactly when
the node's token is truthy (present and non-empty). -/
theorem invoke_request_envelope (c : MCPClient) (tool : String) (payload : Json)
    (nn : Option String) (ctx : Option Json) (node : MCPNode) (req : HttpRequest)
    (htool : tool ≠ "") (hres : resolveNode c nn = some node)
    (hreq : invokeToolRequest c tool payload nn ctx = Except.ok req) :
    req.method = "POST" ∧
    req.url = pyStr node.url ++ "/tools/" ++ tool ∧
    (jsonTruthy node.token = true →
      req.headers = [("Content-Type", "application/json"),
        ("Authorization", "Bearer " ++ pyStr node.token)]) ∧
    (jsonTruthy node.token = false →
      req.headers = [("Content-Type", "application/json")]) ∧
    (∀ cv, ctx = some cv → jsonTruthy cv = true →
      req.body = Json.obj [("input", payload), ("context", cv)]) ∧
    ((ctx = none ∨ ∃ cv, ctx = some cv ∧ jsonTruthy cv = false) →
      req.body = Json.obj [("input", payload)]) := by
  unfold invokeToolRequest at hreq
  rw [if_neg (by simpa using htool), hres] at hreq
  dsimp only at hreq
  obtain rfl := ((Except.ok.injEq _ _).mp hreq)
  refine ⟨rfl, rfl, ?_, ?_, ?_, ?_⟩
  · intro ht
    show headersFor node = _
    unfold headersFor
    rw [if_pos ht]
  · intro ht
    show headersFor node = _
    unfold headersFor
    rw [if_neg (by simp [ht])]
  · intro cv hcv htr
    subst hcv
    show Json.obj ([("input", payload)] ++
      if jsonTruthy cv then [("context", cv)] else []) = _
    rw [if_pos htr]
    rfl
  · intro hcase
    rcases hcase with hnone | ⟨cv, hcv, hfalse⟩
    · subst hnone
      rfl
    · subst hcv
      show Json.obj ([("input", payload)] ++
        if jsonTruthy cv then [("context", cv)] else []) = _
      rw [if_neg (by simp [hfalse])]
      rfl

theorem invoke_request_envelope_witness :
    (⟨"POST", "u/tools/t",
      [("Content-Type", "application/json"), ("Authorization", "Bearer tok")],
      Json.obj [("input", Json.num 5), ("context", Json.obj [("k", Json.num 1)])]⟩ :
        HttpRequest).body =
      Json.obj [("input", Json.num 5), ("context", Json.obj [("k", Json.num 1)])] :=
  (invoke_request_envelope
    ⟨[("a", ⟨"a", Json.str "u", Json.str "tok"⟩)], some "a"⟩ "t" (Json.num 5)
    none (some (Json.obj [("k", Json.num 1)]))
    ⟨"a", Json.str "u", Json.str "tok"⟩
    ⟨"POST", "u/tools/t",
      [("Content-Type", "application/json"), ("Authorization", "Bearer tok")],
      Json.obj [("input", Json.num 5), ("context", Json.obj [("k", Json.num 1)])]⟩
    (by decide) rfl rfl).2.2.2.2.1
    (Json.obj [("k", Json.num 1)]) rfl rfl

/-! ## C10 -/

/-- C10 counterexample: `add_node("a", "/")` stores a node whose url is the
empty string (`"/".rstrip("/") == ""` — the non-empty check on line 80 runs
before the strip), so not every stored node has a non-empty url. -/
theorem stored_empty_url_counterexample :
    add_node ⟨[], none⟩ "a" "/" none =
      Except.ok ⟨[("a", ⟨"a", Json.str "", Json.null⟩)], some "a"⟩ ∧
    ((⟨[("a", ⟨"a", Json.str "", Json.null⟩)], some "a"⟩ : MCPClient).nodes.map
      (fun p => p.2.url)) = [Json.str ""] ∧
    jsonTruthy (Json.str "") = false :=
  ⟨rfl, rfl, rfl⟩

/-- C10 (amended): in every registry state produced by loading persisted
state or by any sequence of add_node/remove_node/set_active, every node
stored under key k has its name field equal to k (load takes the name from
the map key, discarding any "name" field inside the stored entry); every
node produced by load has a truthy (non-empty) url, but a node created by
add_node with a url consisting solely of slashes is stored with an empty
url. -/
theorem registry_key_consistency :
    (∀ c, Reachable c → NamesOk c.nodes) ∧
    (∀ file c, loadState file = Except.ok c →
      NamesOk c.nodes ∧ UrlsOk c.nodes) :=
  ⟨fun _ hr => (reachable_inv hr).2.1,
   fun _ _ h => ⟨(loadState_ok_inv h).2.1, (loadState_ok_inv h).2.2.1⟩⟩

theorem registry_key_consistency_witness :
    NamesOk sampleClient.nodes ∧
    UrlsOk (⟨[("a", ⟨"a", Json.str "u", Json.null⟩)], none⟩ : MCPClient).nodes :=
  ⟨registry_key_consistency.1 sampleClient
    (Reachable.add ⟨[], none⟩ sampleClient "a" "http://x" none Reachable.empty rfl),
   (registry_key_consistency.2
     (some (Json.obj [("nodes",
       Json.obj [("a", Json.obj [("url", Json.str "u")])])]))
     ⟨[("a", ⟨"a", Json.str "u", Json.null⟩)], none⟩ rfl).2⟩

end MCP
